import Mathlib

/-!
Verification of the maud hot-reload core (`maud_macros_impl`): a shallow
embedding of the escaper, the runtime format builder (`runtime.rs`), the
source-recovery scanner (`gather_html_macro_invocations`), and the runtime
entry points (`expand_runtime_from_parsed` / `expand_runtime_main`) from
`lib.rs`, together with theorems about them.

Modelling conventions:
- Opaque host token streams (`TokenStream`, expression fragments, spans
  elided) are modelled as `String`.
- File I/O is modelled by an oracle `fs : String -> Except String (List String)`
  mapping a path to either an open error or the file's lines.
- A Rust `panic!` that escapes a function is modelled by `Option`/an explicit
  outcome constructor, as noted at each definition.
-/

namespace Maud

/-- Opaque host token streams and expression fragments, modelled by their
textual rendering (`TokenStream::to_string`). -/
abbrev Tokens := String

/-! ## Escaper

Modelled from the spec: the `escape` module is not under `src/`.  Spec 4.1:
a pure function replacing the HTML-significant characters and appending to
an output buffer; `escape_to_string(input, &mut output)` appends the escaped
form of `input` to `output`. -/

/-- Modelled from the spec: per-character HTML escaping map of spec 4.1 -
`&` to `&amp;`, `<` to `&lt;`, `>` to `&gt;`, `"` to `&quot;`, all other
characters unchanged. -/
def escChar : Char → String
  | '&' => "&amp;"
  | '<' => "&lt;"
  | '>' => "&gt;"
  | '\"' => "&quot;"
  | c => String.singleton c

/-- Modelled from the spec: `escape_to_string(input, &mut output)` walks the
input and appends each character's escaped form to the output buffer. -/
def escape_to_string (input : String) (output : String) : String :=
  input.data.foldl (fun acc c => acc ++ escChar c) output

/-- HTML escaping of a whole string (escaping into an empty buffer). -/
def escape (s : String) : String :=
  escape_to_string s ""

/-! ## Source recovery scanner (`gather_html_macro_invocations`, lib.rs) -/

/-- Rust `str::split_once` on character lists: split at the first occurrence of
`pat`, returning the parts before and after it (the occurrence removed). -/
def splitOnceCs (pat : List Char) : List Char → Option (List Char × List Char)
  | [] => if pat.isPrefixOf ([] : List Char) then some ([], []) else none
  | c :: rest =>
    if pat.isPrefixOf (c :: rest) then some ([], (c :: rest).drop pat.length)
    else (splitOnceCs pat rest).map fun p => (c :: p.1, p.2)

/-- Rust `str::split_once` with a string pattern. -/
def splitOnceStr (s pat : String) : Option (String × String) :=
  (splitOnceCs pat.data s.data).map fun p => (String.mk p.1, String.mk p.2)

/-- Rust `str::split_once` with a character pattern. -/
def splitOnceChar (s : String) (c : Char) : Option (String × String) :=
  splitOnceStr s (String.singleton c)

/-- The keyword-search loop of `gather_html_macro_invocations` (lib.rs
192-205): consume lines until one contains `kw`; on the matching line take
the text after the keyword, and if `should_skip` additionally drop
everything up to and including the first occurrence of `ib` (the keyword's
last character) in that text, keeping it unchanged when `ib` does not occur.
Returns the initial `rest_of_line` and the lines left in the iterator. -/
def findMacroStart (kw : String) (ib : Char) (should_skip : Bool) :
    List String → String × List String
  | [] => ("", [])
  | l :: ls =>
    match splitOnceStr l kw with
    | some (_, after) =>
      let after :=
        if should_skip then
          match splitOnceChar after ib with
          | some (_, after2) => after2
          | none => after
        else after
      (after, ls)
    | none => findMacroStart kw ib should_skip ls

/-- One line of the bracket-balance scan (lib.rs 210-227): openers increment
the depth and are copied, closers decrement and are copied unless the new
depth is -1, which terminates the whole scan without copying the closer.
Returns (copied characters, final depth, whether the scan terminated). -/
def scanLine : List Char → Int → List Char × Int × Bool
  | [], d => ([], d, false)
  | c :: cs, d =>
    if c = '[' ∨ c = '\x7b' ∨ c = '(' then
      let r := scanLine cs (d + 1)
      (c :: r.1, r.2)
    else if c = ']' ∨ c = '\x7d' ∨ c = ')' then
      if d - 1 = -1 then ([], d - 1, true)
      else
        let r := scanLine cs (d - 1)
        (c :: r.1, r.2)
    else
      let r := scanLine cs d
      (c :: r.1, r.2)

/-- The linewise loop of the bracket scan (lib.rs 209-230): scan each line,
appending a newline after every line that did not terminate the scan; a
terminated line ends the output immediately (no trailing newline). -/
def scanLines : List String → Int → List Char
  | [], _ => []
  | l :: ls, d =>
    let r := scanLine l.data d
    if r.2.2 then r.1 else r.1 ++ '\n' :: scanLines ls r.2.1

/-- Final emptiness check (lib.rs 232-236): `output.trim().is_empty()` holds
exactly when every character is whitespace; a whitespace-only buffer is the
"output is empty" error, anything else is success. -/
def finalize (output : String) : Except String String :=
  if output.data.all Char.isWhitespace then Except.error "output is empty"
  else Except.ok output

/-- The scanning part of `gather_html_macro_invocations` once the file's
lines are in hand (lib.rs 179-236): skip to `start_line` (1-based), locate
the keyword, bracket-scan from there, and apply the emptiness check. -/
def gather_from_lines (lines : List String) (start_line : Nat) (kw : String)
    (ib : Char) (should_skip : Bool) : Except String String :=
  let lines_iter := lines.drop (start_line - 1)
  let r := findMacroStart kw ib should_skip lines_iter
  finalize (String.mk (scanLines (r.1 :: r.2) 0))

/-- Model of `Path::new("../").join(file_path)` (lib.rs 159): prefixing with a parent
directory segment, which leaves an absolute path unchanged. -/
def path_join_parent (p : String) : String :=
  if p.data.head? = some '/' then p else "../" ++ p

/-- The candidate-path loop of `gather_html_macro_invocations` (lib.rs
157-177): try the path as-is, then prefixed with `../`; the first file that
opens wins; otherwise every open error is accumulated, each followed by a
newline separator. -/
def tryOpen (fs : String → Except String (List String)) (file_path : String) :
    Except String (List String) :=
  match fs file_path with
  | Except.ok f => Except.ok f
  | Except.error e1 =>
    match fs (path_join_parent file_path) with
    | Except.ok f => Except.ok f
    | Except.error e2 => Except.error (e1 ++ "\n" ++ e2 ++ "\n")

/-- Model of `gather_html_macro_invocations` (lib.rs 143-237).  The filesystem is the
oracle `fs`.  The result is `none` where the source panics:
an empty keyword (`.chars().last().unwrap()`), `start_line = 0`
(`start_line as usize - 1` underflows), or an empty path
(`std::path::absolute(path).unwrap()` fails on the empty path).
Note lib.rs 154: `skip_to_keyword = &skip_to_keyword[..skip_to_keyword.len()]`
is a self-assignment, so the keyword is searched for in full, including any
trailing opening bracket. -/
def gather_html_macro_invocations (fs : String → Except String (List String))
    (file_path : String) (start_line : Nat) (skip_to_keyword : String) :
    Option (Except String String) :=
  match skip_to_keyword.data.getLast? with
  | none => none
  | some initial_opening_brace =>
    let should_skip : Bool :=
      initial_opening_brace = '[' ∨ initial_opening_brace = '(' ∨
        initial_opening_brace = '\x7b'
    if start_line = 0 then none
    else if file_path = "" then none
    else
      match tryOpen fs file_path with
      | Except.error errors => some (Except.error errors)
      | Except.ok lines =>
        some (gather_from_lines lines start_line skip_to_keyword
          initial_opening_brace should_skip)

/-! ## Runtime entry point generated by `expand_runtime_from_parsed` (lib.rs 62-110)

The macro emits a block that (1) recovers the current source text, falling
back to the originally compiled input string unless the strict-mode
environment flag is set, in which case it panics, and then (2) feeds the
chosen input to `expand_runtime_main`.  We model the input-selection step
(lib.rs 88-98). -/

/-- What the generated block does with the recovery result: either it calls
`expand_runtime_main` on some input string, or it panics (strict mode). -/
inductive RuntimeOutcome where
  | interpret (input : String)
  | fatalPanic
  deriving DecidableEq

/-- Input selection of the generated runtime block (lib.rs 88-98):
a successful recovery is used as-is; on failure, if the environment variable
`MAUD_SOURCE_NO_FALLBACK` is `"1"` the block panics, otherwise the
originally compiled (pre-edit) input string is fed to the interpreter. -/
def expand_runtime_entry (env_no_fallback : Option String)
    (recovery : Except String String) (original_input : String) :
    RuntimeOutcome :=
  match recovery with
  | Except.ok x => RuntimeOutcome.interpret x
  | Except.error _ =>
    if env_no_fallback = some "1" then RuntimeOutcome.fatalPanic
    else RuntimeOutcome.interpret original_input

/-! ## `expand_runtime_main` (lib.rs 113-140)

The bodies of the host lexer (`input.parse::<TokenStream>()`), of
`parse_at_runtime` and of the interpreter (`runtime::build_interpreter` /
`run`) are not under `src/`; they are taken as parameters.  A panic raised
by `parse_at_runtime` is modelled as `Except.error payload` with
`payload : Option String` (`some s` when the panic payload downcasts to a
string, `none` otherwise) - exactly what `catch_unwind` hands back. -/

/-- Result of `expand_runtime_main` as seen by its caller: a value, an error
value, or a panic escaping the function uncontrolled. -/
inductive MainOutcome where
  | ok (rendered : String)
  | err (diagnostic : String)
  | panicked (message : String)
  deriving DecidableEq

/-- The collaborators of `expand_runtime_main` that live outside `src/`:
the host tokenizer (`none` = lex error), the runtime parser (`Except.error` =
panic with its payload), and the interpreter run. -/
structure MainEnv where
  lex : String → Option Tokens
  parse_at_runtime : Tokens → Except (Option String) (List Unit)
  runInterp : List Unit → List (String × String) → Except String String

/-- Model of `expand_runtime_main` (lib.rs 113-140): tokenization failure panics
uncontrolled (`unwrap_or_else(|_| panic!("{}", input))`, outside the
`catch_unwind`); `parse_at_runtime` runs inside `catch_unwind`, its panic
payload becoming `Err` (string payload, or `"unknown panic"`); on parse
success the interpreter's own `Result` is returned.  The parsed markup list
and variable map are opaque here (`List Unit` / an association list). -/
def expand_runtime_main (env : MainEnv) (vars : List (String × String))
    (input : String) : MainOutcome :=
  match env.lex input with
  | none => MainOutcome.panicked input
  | some ts =>
    match env.parse_at_runtime ts with
    | Except.error (some s) => MainOutcome.err s
    | Except.error none => MainOutcome.err "unknown panic"
    | Except.ok markups =>
      match env.runInterp markups vars with
      | Except.ok x => MainOutcome.ok x
      | Except.error e => MainOutcome.err e

/-! ## Markup AST (ast.rs, as consumed by runtime.rs)

The variants and fields are those pattern-matched by `runtime.rs`; spans are
compile-time positions with no effect on the builder and are elided.
Attributes are taken after `desugar_attrs` (generate.rs), the thin
per-attribute desugaring declared out of scope by spec 1; an `Element`
carries the desugared `NamedAttr` list directly.  The catch-all arm of
`RuntimeGenerator::markup` (runtime.rs 70-74) is represented by the extra
constructor `other`. -/

mutual

inductive Markup where
  | parseError
  | block (b : MBlock)
  | literal (content : String)
  | symbol (symbol : Tokens)
  | splice (expr : Tokens)
  | element (name : Tokens) (attrs : List NamedAttr) (body : ElementBody)
  | letIn (tokens : Tokens)
  | special (segments : List MSpecial)
  | other (tokens : Tokens)

inductive MBlock where
  | mk (markups : List Markup) (raw_body : Option String)

inductive ElementBody where
  | void
  | block (b : MBlock)

inductive NamedAttr where
  | mk (name : Tokens) (attr_type : AttrType)

inductive AttrType where
  | normal (value : Markup)
  | optional (cond : Tokens)
  | empty (toggler : Option Tokens)

inductive MSpecial where
  | mk (head : Tokens) (body : MBlock)

end

/-- Whether a markup is a `Let` binding (`matches!(*markup, Markup::Let { .. })`,
runtime.rs 46). -/
def isLet : Markup → Bool
  | Markup.letIn _ => true
  | _ => false

/-- The opaque host-code payload passed to `push_format_arg`, recording
which generator path produced it together with that path's inputs
(the payload is emitted verbatim into the token stream and never influences
the builder state). -/
inductive Payload where
  | splice (expr : Tokens)
  | special (segments : List MSpecial)
  | optionalAttr (cond : Tokens) (name : String)
  | emptyToggleAttr (cond : Tokens) (name : String)
  | fallback (tokens : Tokens)

/-- One token-stream fragment accumulated in `RuntimeBuilder::tokens`:
either `Let` tokens threaded verbatim (runtime.rs 64-67) or one
`#vars.insert(#arg_track, ...)` statement (runtime.rs 232-241). -/
inductive RtTok where
  | lit (tokens : Tokens)
  | insert (key : String) (arg : Payload)

/-- State of `RuntimeBuilder` (runtime.rs 199-204): the format-template accumulator.
`arg_track` is a `u32` counter; it only ever increments by one per dynamic
piece, and overflow would panic in the source before wrapping, so it is
modelled as `Nat`. -/
structure RuntimeBuilder where
  vars_ident : Option String
  tokens : List RtTok
  format_str : String
  arg_track : Nat

/-- Model of `RuntimeBuilder::new` (runtime.rs 207-214). -/
def RuntimeBuilder.new (vars_ident : Option String) : RuntimeBuilder :=
  { vars_ident := vars_ident, tokens := [], format_str := "", arg_track := 0 }

/-- Model of `RuntimeBuilder::push_str` (runtime.rs 216-218). -/
def RuntimeBuilder.push_str (b : RuntimeBuilder) (s : String) : RuntimeBuilder :=
  { b with format_str := b.format_str ++ s }

/-- Replacement of every occurrence of the single character `t` by `r`
(Rust `str::replace` with a one-character pattern acts per character). -/
def replaceChar (t : Char) (r : String) (s : String) : String :=
  String.mk (s.data.foldr (fun c acc => (if c = t then r.data else [c]) ++ acc) [])

/-- The template-escaping pass of `push_escaped` (runtime.rs 222-225):
`.replace("\\", "\\\\").replace("{", "\\{").replace("}", "\\}")`, applied in
that order. -/
def rt_escape (s : String) : String :=
  replaceChar '\x7d' "\\\x7d" (replaceChar '\x7b' "\\\x7b" (replaceChar '\\' "\\\\" s))

/-- Model of `RuntimeBuilder::push_escaped` (runtime.rs 220-227): backslash-escape
`\`, `{`, `}`, then HTML-escape the result into the format template. -/
def RuntimeBuilder.push_escaped (b : RuntimeBuilder) (s : String) : RuntimeBuilder :=
  { b with format_str := escape_to_string (rt_escape s) b.format_str }

/-- Model of `RuntimeBuilder::push_format_arg` (runtime.rs 229-245): when a live
variable map is present, emit a `#vars.insert(#arg_track, ...)` statement;
always bump `arg_track` and append the positional placeholder
`"{" ++ arg_track ++ "}"` to the format template. -/
def RuntimeBuilder.push_format_arg (b : RuntimeBuilder) (p : Payload) : RuntimeBuilder :=
  let arg_track := Nat.repr b.arg_track
  let b' :=
    match b.vars_ident with
    | some _ => { b with tokens := b.tokens ++ [RtTok.insert arg_track p] }
    | none => b
  { b' with
    arg_track := b'.arg_track + 1,
    format_str := b'.format_str ++ "\x7b" ++ arg_track ++ "\x7d" }

/-- Modelled from the spec: `name_to_string` (not under `src/`) renders a
name token stream as text; names are already modelled by their text. -/
def name_to_string (name : Tokens) : String := name

/-! The traversal of `RuntimeGenerator` (runtime.rs 30-194), with the
builder threaded explicitly.  `special` (runtime.rs 89-111) builds its
segments' code through independent nested expansions that do not touch the
current builder, so it contributes exactly one `push_format_arg`. -/

mutual

/-- Model of `RuntimeGenerator::markups` (runtime.rs 30-34). -/
def markupsGo : List Markup → RuntimeBuilder → RuntimeBuilder
  | [], b => b
  | m :: ms, b => markupsGo ms (markupGo m b)
termination_by l b => sizeOf l

/-- Model of `RuntimeGenerator::markup` (runtime.rs 36-76); the `Block` arm inlines
`RuntimeGenerator::block` (runtime.rs 78-87), which wraps the block in a
single headless `Special` segment, and the `Element` arm inlines
`RuntimeGenerator::element` (runtime.rs 117-134). -/
def markupGo : Markup → RuntimeBuilder → RuntimeBuilder
  | Markup.parseError, b => b
  | Markup.block (MBlock.mk ms rb), b =>
    if ms.any isLet then
      b.push_format_arg (Payload.special [MSpecial.mk "" (MBlock.mk ms rb)])
    else
      markupsGo ms b
  | Markup.literal content, b => b.push_escaped content
  | Markup.symbol s, b => b.push_escaped (name_to_string s)
  | Markup.splice e, b => b.push_format_arg (Payload.splice e)
  | Markup.element name attrs body, b =>
    let b1 := ((b.push_str "<").push_escaped (name_to_string name))
    let b2 := (attrsGo attrs b1).push_str ">"
    (match body with
      | ElementBody.void => b2
      | ElementBody.block (MBlock.mk ms _) =>
        (((markupsGo ms b2).push_str "</").push_escaped (name_to_string name)).push_str ">")
  | Markup.letIn t, b => { b with tokens := b.tokens ++ [RtTok.lit t] }
  | Markup.special segs, b => b.push_format_arg (Payload.special segs)
  | Markup.other t, b => b.push_format_arg (Payload.fallback t)
termination_by m b => sizeOf m

/-- Model of `RuntimeGenerator::attrs` (runtime.rs 140-194). -/
def attrsGo : List NamedAttr → RuntimeBuilder → RuntimeBuilder
  | [], b => b
  | NamedAttr.mk name ty :: rest, b =>
    let b1 :=
      match ty with
      | AttrType.normal value =>
        (markupGo value
          (((b.push_str " ").push_escaped (name_to_string name)).push_str "=\"")).push_str "\""
      | AttrType.optional cond =>
        b.push_format_arg (Payload.optionalAttr cond (name_to_string name))
      | AttrType.empty none =>
        (b.push_str " ").push_escaped (name_to_string name)
      | AttrType.empty (some cond) =>
        b.push_format_arg (Payload.emptyToggleAttr cond (name_to_string name))
    attrsGo rest b1
termination_by l b => sizeOf l

end

/-- Model of `runtime::generate` (runtime.rs 11-15): run the generator and collect
the accumulated token stream (`finish`). -/
def Runtime.generate (vars_ident : Option String) (markups : List Markup) :
    List RtTok :=
  (markupsGo markups (RuntimeBuilder.new vars_ident)).tokens

/-- Model of `runtime::format_str` (runtime.rs 17-21): run the generator and return
the format template. -/
def Runtime.format_str (vars_ident : Option String) (markups : List Markup) :
    String :=
  (markupsGo markups (RuntimeBuilder.new vars_ident)).format_str

/-! Counting the dynamic pieces (the `push_format_arg` calls) of a
traversal, in the generator's own order. -/

mutual

/-- Number of dynamic pieces contributed by one markup. -/
def dcM : Markup → Nat
  | Markup.parseError => 0
  | Markup.block (MBlock.mk ms _) => if ms.any isLet then 1 else dcList ms
  | Markup.literal _ => 0
  | Markup.symbol _ => 0
  | Markup.splice _ => 1
  | Markup.element _ attrs body => dcAttrs attrs + dcBody body
  | Markup.letIn _ => 0
  | Markup.special _ => 1
  | Markup.other _ => 1

/-- Number of dynamic pieces contributed by an element body. -/
def dcBody : ElementBody → Nat
  | ElementBody.void => 0
  | ElementBody.block (MBlock.mk ms _) => dcList ms

/-- Number of dynamic pieces contributed by a markup list. -/
def dcList : List Markup → Nat
  | [] => 0
  | m :: ms => dcM m + dcList ms

/-- Number of dynamic pieces contributed by an attribute list. -/
def dcAttrs : List NamedAttr → Nat
  | [] => 0
  | NamedAttr.mk _ ty :: rest =>
    (match ty with
      | AttrType.normal value => dcM value
      | AttrType.optional _ => 1
      | AttrType.empty none => 0
      | AttrType.empty (some _) => 1) + dcAttrs rest

end

/-- The insertion keys recorded in an accumulated token stream, in order. -/
def insKeys : List RtTok → List String
  | [] => []
  | RtTok.lit _ :: ts => insKeys ts
  | RtTok.insert k _ :: ts => k :: insKeys ts

/-- The var-ids `start, start+1, ..., start+n-1` rendered as decimal keys. -/
def keyRange (start n : Nat) : List String :=
  (List.range' start n).map Nat.repr

/-! ## Reading placeholders back out of a format template

The format template uses the placeholder syntax the source escapes for
(runtime.rs 221-225): `{id}` is a placeholder, and a backslash escapes the
following character.  `fmtIds` scans a template and lists the placeholder
ids it records, left to right. -/

/-- Scanner state: ordinary text, just after an escaping backslash, or
inside a placeholder with the id characters read so far (reversed). -/
inductive ScanSt where
  | normal
  | esc
  | ph (buf : List Char)
  deriving DecidableEq

/-- One scanner step. -/
def scanStep : ScanSt → Char → ScanSt × Option String
  | ScanSt.normal, c =>
    if c = '\\' then (ScanSt.esc, none)
    else if c = '\x7b' then (ScanSt.ph [], none)
    else (ScanSt.normal, none)
  | ScanSt.esc, _ => (ScanSt.normal, none)
  | ScanSt.ph buf, c =>
    if c = '\x7d' then (ScanSt.normal, some (String.mk buf.reverse))
    else (ScanSt.ph (c :: buf), none)

/-- Run the scanner, returning the final state and the placeholder ids
emitted. -/
def scanRun : ScanSt → List Char → ScanSt × List String
  | st, [] => (st, [])
  | st, c :: cs =>
    let s := scanStep st c
    let r := scanRun s.1 cs
    (r.1, s.2.toList ++ r.2)

/-- The placeholder ids recorded in a format template, in order. -/
def fmtIds (s : String) : List String :=
  (scanRun ScanSt.normal s.data).2

/-- A format template is neutral when scanning it ends in ordinary-text
state (no trailing lone backslash, no unclosed placeholder). -/
def FmtNeutral (s : String) : Prop :=
  (scanRun ScanSt.normal s.data).1 = ScanSt.normal

/-- Written from the claim, for comparison with the source's two escaping
passes (C8): the composed per-character map - `\`, `{`, `}` get a backslash
prefix, `&`, `<`, `>`, `"` become entities, everything else is unchanged. -/
def pushEscapedCharSpec : Char → String
  | '\\' => "\\\\"
  | '\x7b' => "\\\x7b"
  | '\x7d' => "\\\x7d"
  | '&' => "&amp;"
  | '<' => "&lt;"
  | '>' => "&gt;"
  | '\"' => "&quot;"
  | c => String.singleton c

/-- Concatenation of the per-character images of a map over a character
list (the character-level form of a pure substitution). -/
def mapJoin (f : Char → String) : List Char → List Char
  | [] => []
  | c :: cs => (f c).data ++ mapJoin f cs

/-- The per-character form of the brace-escaping pass (runtime.rs 222-225),
used to relate the three sequential `replace` calls to one substitution. -/
def rtCharSpec (c : Char) : String :=
  if c = '\\' then "\\\\"
  else if c = '\x7b' then "\\\x7b"
  else if c = '\x7d' then "\\\x7d"
  else String.singleton c

/-- A string the placeholder scanner passes over without emitting ids and
without leaving ordinary-text state. -/
def ChunkNeutral (s : String) : Prop :=
  scanRun ScanSt.normal s.data = (ScanSt.normal, [])

/-- The builder-state contract of a generator step: starting from any
builder whose template is neutral, a step of weight `n` preserves the
variable-map mode, advances `arg_track` by `n`, appends exactly the keys
`arg_track .. arg_track+n-1` to the emitted insertions (when a live map is
present), and appends exactly the placeholders for those ids to the format
template, leaving it neutral. -/
def Emits (f : RuntimeBuilder → RuntimeBuilder) (n : Nat) : Prop :=
  ∀ b : RuntimeBuilder, FmtNeutral b.format_str →
    (f b).vars_ident = b.vars_ident ∧
    (f b).arg_track = b.arg_track + n ∧
    insKeys (f b).tokens =
      insKeys b.tokens ++
        (if b.vars_ident.isSome then keyRange b.arg_track n else []) ∧
    FmtNeutral (f b).format_str ∧
    fmtIds (f b).format_str = fmtIds b.format_str ++ keyRange b.arg_track n

/-- A generator step whose effect on the format template and on the var-id
counter is the same from any two builders that agree on template and
counter - regardless of whether a live variable map is being populated. -/
def PreservesFmt (f : RuntimeBuilder → RuntimeBuilder) : Prop :=
  ∀ b₁ b₂ : RuntimeBuilder,
    b₁.format_str = b₂.format_str → b₁.arg_track = b₂.arg_track →
    (f b₁).format_str = (f b₂).format_str ∧ (f b₁).arg_track = (f b₂).arg_track

/-! Concrete filesystems and collaborator bundles used to evaluate the
scenarios of the claims. -/

/-- A file `f.rs` containing the single line `foo{ bar{baz} qux }more`. -/
def fsFoo : String → Except String (List String) := fun p =>
  if p = "f.rs" then Except.ok ["foo\x7b bar\x7bbaz\x7d qux \x7dmore"]
  else Except.error ("no such file: " ++ p)

/-- A file `f.rs` containing the single line `html!{ a { b } }`. -/
def fsHtml : String → Except String (List String) := fun p =>
  if p = "f.rs" then Except.ok ["html!\x7b a \x7b b \x7d \x7d"]
  else Except.error ("no such file: " ++ p)

/-- A file `f.rs` containing the single line `foo{}`. -/
def fsEmptyBody : String → Except String (List String) := fun p =>
  if p = "f.rs" then Except.ok ["foo\x7b\x7d"] else Except.error ("no such file: " ++ p)

/-- A filesystem on which every open fails with the error `open failed`. -/
def fsFail : String → Except String (List String) := fun _ =>
  Except.error "open failed"

/-- A collaborator bundle whose host tokenizer rejects every input, as
`proc_macro2` does on lexically invalid text. -/
def lexFailEnv : MainEnv :=
  { lex := fun _ => none,
    parse_at_runtime := fun _ => Except.ok [],
    runInterp := fun _ _ => Except.ok "" }

/-! ## Character-level escaping lemmas -/

theorem mapJoin_append (f : Char → String) (a b : List Char) :
    mapJoin f (a ++ b) = mapJoin f a ++ mapJoin f b := by
  induction a with
  | nil => rfl
  | cons c cs ih => simp [mapJoin, ih]

theorem escape_to_string_eq (input output : String) :
    escape_to_string input output = output ++ String.mk (mapJoin escChar input.data) := by
  unfold escape_to_string
  generalize input.data = l
  induction l generalizing output with
  | nil =>
    show output = output ++ String.mk []
    have : String.mk ([] : List Char) = "" := rfl
    simp [this]
  | cons c cs ih =>
    show List.foldl _ (output ++ escChar c) cs = _
    rw [ih]
    have : output ++ escChar c ++ String.mk (mapJoin escChar cs)
        = output ++ (escChar c ++ String.mk (mapJoin escChar cs)) := by
      simp [String.append_assoc]
    rw [this]
    have hd : escChar c ++ String.mk (mapJoin escChar cs)
        = String.mk (mapJoin escChar (c :: cs)) := by
      cases h : escChar c with
      | mk d => simp [mapJoin, ← h]; cases escChar c; rfl
    rw [hd]

theorem escape_eq (s : String) : escape s = String.mk (mapJoin escChar s.data) := by
  unfold escape
  rw [escape_to_string_eq]
  cases hm : String.mk (mapJoin escChar s.data)
  simp

theorem escChar_other (c : Char) (h1 : c ≠ '&') (h2 : c ≠ '<') (h3 : c ≠ '>')
    (h4 : c ≠ '\"') : escChar c = String.singleton c := by
  unfold escChar
  split <;> first | rfl | (exfalso; simp_all)

theorem escChar_length_pos (c : Char) : 1 ≤ (escChar c).length := by
  unfold escChar
  split <;> simp [String.singleton, String.length]

theorem mapJoin_length_ge (f : Char → String)
    (hf : ∀ c, 1 ≤ (f c).length) (l : List Char) :
    l.length ≤ (mapJoin f l).length := by
  induction l with
  | nil => simp [mapJoin]
  | cons c cs ih =>
    have := hf c
    simp only [mapJoin, List.length_append, List.length_cons]
    have hc : (f c).length = (f c).data.length := rfl
    omega

theorem escChar_special_length (c : Char)
    (h : c = '&' ∨ c = '<' ∨ c = '>' ∨ c = '\"') : 2 ≤ (escChar c).length := by
  rcases h with h | h | h | h <;> subst h <;> decide

theorem mapJoin_length_gt_of_special (l : List Char)
    (h : ∃ c ∈ l, c = '&' ∨ c = '<' ∨ c = '>' ∨ c = '\"') :
    l.length < (mapJoin escChar l).length := by
  induction l with
  | nil => simp at h
  | cons c cs ih =>
    simp only [mapJoin, List.length_append, List.length_cons]
    rcases h with ⟨d, hd, hspec⟩
    rcases List.mem_cons.mp hd with rfl | hmem
    · have h2 := escChar_special_length d hspec
      have h3 := mapJoin_length_ge escChar escChar_length_pos cs
      have hc : (escChar d).length = (escChar d).data.length := rfl
      omega
    · have h2 := ih ⟨d, hmem, hspec⟩
      have h3 := escChar_length_pos c
      have hc : (escChar c).length = (escChar c).data.length := rfl
      omega

theorem amp_mem_escChar_special (c : Char)
    (h : c = '&' ∨ c = '<' ∨ c = '>' ∨ c = '\"') : '&' ∈ (escChar c).data := by
  rcases h with h | h | h | h <;> subst h <;> decide

theorem amp_mem_mapJoin (l : List Char)
    (h : ∃ c ∈ l, c = '&' ∨ c = '<' ∨ c = '>' ∨ c = '\"') :
    '&' ∈ mapJoin escChar l := by
  induction l with
  | nil => simp at h
  | cons c cs ih =>
    simp only [mapJoin, List.mem_append]
    rcases h with ⟨d, hd, hspec⟩
    rcases List.mem_cons.mp hd with rfl | hmem
    · exact Or.inl (amp_mem_escChar_special d hspec)
    · exact Or.inr (ih ⟨d, hmem, hspec⟩)

/-- C9: `escape` is a pure substitution - it replaces `&` with `&amp;`,
`<` with `&lt;`, `>` with `&gt;` and `"` with `&quot;`, leaves every other
character unchanged, never shrinks its input, and is not idempotent on any
input containing one of those four characters.  (`escape_to_string` is
modelled from spec 4.1; the `escape` module is not under `src/`.) -/
theorem escape_pure_substitution (T : String) :
    escape T = String.mk (mapJoin escChar T.data)
    ∧ escChar '&' = "&amp;" ∧ escChar '<' = "&lt;"
    ∧ escChar '>' = "&gt;" ∧ escChar '\"' = "&quot;"
    ∧ (∀ c, c ≠ '&' → c ≠ '<' → c ≠ '>' → c ≠ '\"' →
        escChar c = String.singleton c)
    ∧ T.length ≤ (escape T).length
    ∧ ((∃ c ∈ T.data, c = '&' ∨ c = '<' ∨ c = '>' ∨ c = '\"') →
        escape (escape T) ≠ escape T) := by
  have hlen : ∀ s : String, s.length ≤ (escape s).length := by
    intro s
    rw [escape_eq]
    exact mapJoin_length_ge escChar escChar_length_pos s.data
  refine ⟨escape_eq T, rfl, rfl, rfl, rfl, escChar_other, hlen T, ?_⟩
  intro hspec
  have hamp : '&' ∈ (escape T).data := by
    rw [escape_eq]
    exact amp_mem_mapJoin T.data hspec
  have hgt : (escape T).length < (escape (escape T)).length := by
    rw [escape_eq (escape T)]
    have := mapJoin_length_gt_of_special (escape T).data ⟨'&', hamp, Or.inl rfl⟩
    have hx : (escape T).length = (escape T).data.length := rfl
    have hy : (String.mk (mapJoin escChar (escape T).data)).length
        = (mapJoin escChar (escape T).data).length := rfl
    omega
  intro heq
  rw [heq] at hgt
  omega

/-- Witness for C9 at the concrete input `"a&b"`: a non-special character is
left alone, and escaping twice differs from escaping once. -/
theorem escape_pure_substitution_witness :
    escChar 'x' = String.singleton 'x'
    ∧ escape (escape "a&b") ≠ escape "a&b" :=
  ⟨(escape_pure_substitution "a&b").2.2.2.2.2.1 'x' (by decide) (by decide)
      (by decide) (by decide),
    (escape_pure_substitution "a&b").2.2.2.2.2.2.2 (by decide)⟩

theorem mapJoin_congr {f g : Char → String} (h : ∀ c, f c = g c) :
    ∀ l : List Char, mapJoin f l = mapJoin g l := by
  intro l
  induction l with
  | nil => rfl
  | cons c cs ih => simp [mapJoin, ih, h c]

theorem mapJoin_comp (g f : Char → String) (l : List Char) :
    mapJoin g (mapJoin f l)
      = mapJoin (fun c => String.mk (mapJoin g (f c).data)) l := by
  induction l with
  | nil => rfl
  | cons c cs ih => simp [mapJoin, mapJoin_append, ih]

theorem replaceChar_data (t : Char) (r s : String) :
    (replaceChar t r s).data
      = mapJoin (fun c => if c = t then r else String.singleton c) s.data := by
  unfold replaceChar
  show (s.data.foldr _ []) = _
  induction s.data with
  | nil => rfl
  | cons c cs ih =>
    by_cases hc : c = t <;>
      simp [mapJoin, hc, ih, String.singleton]

theorem rt_escape_data (s : String) :
    (rt_escape s).data = mapJoin rtCharSpec s.data := by
  unfold rt_escape
  rw [replaceChar_data, replaceChar_data, replaceChar_data, mapJoin_comp,
    mapJoin_comp]
  refine mapJoin_congr ?_ s.data
  intro c
  by_cases h1 : c = '\\'
  · subst h1; decide
  by_cases h2 : c = '\x7b'
  · subst h2; decide
  by_cases h3 : c = '\x7d'
  · subst h3; decide
  · simp [rtCharSpec, h1, h2, h3, mapJoin, String.singleton]
    rfl

theorem pushEscapedCharSpec_other (c : Char) (h1 : c ≠ '\\') (h2 : c ≠ '\x7b')
    (h3 : c ≠ '\x7d') (h4 : c ≠ '&') (h5 : c ≠ '<') (h6 : c ≠ '>')
    (h7 : c ≠ '\"') : pushEscapedCharSpec c = String.singleton c := by
  unfold pushEscapedCharSpec
  split <;> first | rfl | (exfalso; simp_all)

theorem push_escaped_format (b : RuntimeBuilder) (s : String) :
    (b.push_escaped s).format_str
      = b.format_str ++ String.mk (mapJoin pushEscapedCharSpec s.data) := by
  show escape_to_string (rt_escape s) b.format_str = _
  rw [escape_to_string_eq, rt_escape_data, mapJoin_comp]
  congr 2
  refine mapJoin_congr ?_ s.data
  intro c
  by_cases h1 : c = '\\'
  · subst h1; decide
  by_cases h2 : c = '\x7b'
  · subst h2; decide
  by_cases h3 : c = '\x7d'
  · subst h3; decide
  by_cases h4 : c = '&'
  · subst h4; decide
  by_cases h5 : c = '<'
  · subst h5; decide
  by_cases h6 : c = '>'
  · subst h6; decide
  by_cases h7 : c = '\"'
  · subst h7; decide
  · rw [pushEscapedCharSpec_other c h1 h2 h3 h4 h5 h6 h7]
    simp [rtCharSpec, h1, h2, h3, mapJoin, String.singleton,
      escChar_other c h4 h5 h6 h7]
    rfl

/-- C8: appending a literal or symbol writes into the format template the
input with `\`, `{`, `}` backslash-prefixed and `&`, `<`, `>`, `"` replaced
by their entities, all other characters unchanged: the two escaping passes
of `push_escaped` (runtime.rs 220-227) compose to exactly this
per-character substitution, so every brace and backslash of the original
text ends up backslash-escaped in the template.  Nothing else of the
builder state changes. -/
theorem push_escaped_two_passes (b : RuntimeBuilder) (s : String) :
    (b.push_escaped s).format_str
      = b.format_str ++ String.mk (mapJoin pushEscapedCharSpec s.data)
    ∧ (b.push_escaped s).tokens = b.tokens
    ∧ (b.push_escaped s).arg_track = b.arg_track
    ∧ (b.push_escaped s).vars_ident = b.vars_ident
    ∧ pushEscapedCharSpec '\\' = "\\\\"
    ∧ pushEscapedCharSpec '\x7b' = "\\\x7b"
    ∧ pushEscapedCharSpec '\x7d' = "\\\x7d"
    ∧ pushEscapedCharSpec '&' = "&amp;"
    ∧ pushEscapedCharSpec '<' = "&lt;"
    ∧ pushEscapedCharSpec '>' = "&gt;"
    ∧ pushEscapedCharSpec '\"' = "&quot;"
    ∧ (∀ c, c ≠ '\\' → c ≠ '\x7b' → c ≠ '\x7d' → c ≠ '&' → c ≠ '<' →
        c ≠ '>' → c ≠ '\"' → pushEscapedCharSpec c = String.singleton c)
    ∧ markupGo (Markup.literal s) b = b.push_escaped s
    ∧ markupGo (Markup.symbol s) b = b.push_escaped s := by
  refine ⟨push_escaped_format b s, rfl, rfl, rfl, rfl, rfl, rfl, rfl, rfl,
    rfl, rfl, pushEscapedCharSpec_other, ?_, ?_⟩ <;> simp [markupGo, name_to_string]

/-- Witness for C8 at a concrete builder and input: evaluates the composed
substitution on `a{` and checks an untouched character. -/
theorem push_escaped_two_passes_witness :
    ((RuntimeBuilder.new none).push_escaped "a\x7b").format_str
      = "" ++ String.mk (mapJoin pushEscapedCharSpec "a\x7b".data)
    ∧ pushEscapedCharSpec 'q' = String.singleton 'q' :=
  ⟨(push_escaped_two_passes (RuntimeBuilder.new none) "a\x7b").1,
    (push_escaped_two_passes (RuntimeBuilder.new none) "a\x7b").2.2.2.2.2.2.2.2.2.2.2.1
      'q' (by decide) (by decide) (by decide) (by decide) (by decide)
      (by decide) (by decide)⟩

/-! ## Source recovery: concrete scenarios -/

/-- Counterexample to C2: on a file containing `foo{ bar{baz} qux }more`,
recovery with keyword `foo` does not return `" bar{baz} qux "` - the
keyword does not end in an opening bracket, so no bracket is skipped, the
opening brace is copied and counted, the depth never reaches -1, and the
scan runs to the end of the line (including `more`) and appends a
newline. -/
theorem gather_balanced_counterexample :
    gather_html_macro_invocations fsFoo "f.rs" 1 "foo"
      ≠ some (Except.ok " bar\x7bbaz\x7d qux ") := by
  have h : gather_html_macro_invocations fsFoo "f.rs" 1 "foo"
      = some (Except.ok "\x7b bar\x7bbaz\x7d qux \x7dmore\n") := rfl
  rw [h]
  intro heq
  injection heq with h1
  injection h1 with h2
  exact absurd h2 (by decide)

/-- C2 (amended): on a file containing `foo{ bar{baz} qux }more`, recovery
with keyword `foo` returns `Ok "{ bar{baz} qux }more\n"`: because `foo`
does not end in an opening bracket, the brace after it is copied and
counted rather than skipped, so the depth stays non-negative through the
final `}` and the scan copies the whole rest of the line, then appends the
per-line newline. -/
theorem gather_balanced_amended :
    gather_html_macro_invocations fsFoo "f.rs" 1 "foo"
      = some (Except.ok "\x7b bar\x7bbaz\x7d qux \x7dmore\n") := rfl

/-- C5: evaluation at the failing input.  With keyword `html!{` (which ends
in an opening bracket, so the skip path is taken) on a file containing
`html!{ a { b } }`, the source skips past the first `{` occurring *inside
the body* - because line 154's `&skip_to_keyword[..skip_to_keyword.len()]`
is a self-assignment, the keyword search already consumed the opening
brace, and the additional `split_once('{')` drops the body text ` a ` and
the inner opening brace - returning `Ok " b "` instead of the intended
`Ok " a { b } "`. -/
theorem gather_skip_bracket_code_bug :
    gather_html_macro_invocations fsHtml "f.rs" 1 "html!\x7b"
      = some (Except.ok " b ") := rfl

/-- Counterexample to C7's example clause: with keyword `foo` (no trailing
bracket) on a file containing `foo{}`, the braces are copied rather than
skipped, so recovery succeeds with `"{}\n"` instead of yielding the
empty-output error. -/
theorem gather_empty_body_counterexample :
    gather_html_macro_invocations fsEmptyBody "f.rs" 1 "foo"
      = some (Except.ok "\x7b\x7d\n") := rfl

/-- C7 (amended): recovery never reports an empty or whitespace-only buffer
as a success - every `Ok` output fails the all-whitespace test - and a
keyword that ends in an opening brace immediately followed by `}` (here
`foo{` on the file `foo{}`) does yield the `"output is empty"` error;
but a keyword with no trailing bracket followed by `{}` returns
`Ok "{}\n"` since both braces are copied. -/
theorem gather_nonempty_success :
    (∀ fs fp sl kw out,
        gather_html_macro_invocations fs fp sl kw = some (Except.ok out) →
        out.data.all Char.isWhitespace = false)
    ∧ gather_html_macro_invocations fsEmptyBody "f.rs" 1 "foo\x7b"
        = some (Except.error "output is empty") := by
  constructor
  · intro fs fp sl kw out h
    unfold gather_html_macro_invocations at h
    split at h
    · exact absurd h (by simp)
    split at h
    · exact absurd h (by simp)
    split at h
    · exact absurd h (by simp)
    split at h
    · exact absurd h (by simp)
    injection h with h3
    unfold gather_from_lines finalize at h3
    dsimp only at h3
    split at h3
    · exact absurd h3 (by simp)
    rename_i hw
    injection h3 with h4
    rw [← h4]
    simpa using hw
  · rfl

/-- Witness for C7's universal clause: applied at the concrete recovery of
`fsFoo`, whose successful output indeed contains non-whitespace. -/
theorem gather_nonempty_success_witness :
    ("\x7b bar\x7bbaz\x7d qux \x7dmore\n" : String).data.all Char.isWhitespace
      = false :=
  gather_nonempty_success.1 fsFoo "f.rs" 1 "foo" "\x7b bar\x7bbaz\x7d qux \x7dmore\n" rfl

/-- C6: recovery tries the reported path first, then the parent-prefixed
path; the first successful open is used; and when both fail the result is
an error (not raw text) concatenating the two open errors, each followed by
the newline separator. -/
theorem gather_candidate_paths (fs : String → Except String (List String))
    (fp : String) (sl : Nat) (kw : String)
    (hkw : kw ≠ "") (hsl : sl ≠ 0) (hfp : fp ≠ "") :
    (∀ e1 e2, fs fp = Except.error e1 →
        fs (path_join_parent fp) = Except.error e2 →
        gather_html_macro_invocations fs fp sl kw
          = some (Except.error (e1 ++ "\n" ++ e2 ++ "\n")))
    ∧ (∀ L, fs fp = Except.ok L → tryOpen fs fp = Except.ok L)
    ∧ (∀ e1 L, fs fp = Except.error e1 →
        fs (path_join_parent fp) = Except.ok L → tryOpen fs fp = Except.ok L)
    ∧ (∀ err, tryOpen fs fp = Except.error err →
        gather_html_macro_invocations fs fp sl kw = some (Except.error err)) := by
  have hdata : kw.data ≠ [] := by
    intro h
    apply hkw
    cases kw
    simp at h
    rw [h]
  have hsome : kw.data.getLast?.isSome := List.getLast?_isSome.mpr hdata
  rcases hg : kw.data.getLast? with _ | ib
  · rw [hg] at hsome; simp at hsome
  have herr : ∀ err, tryOpen fs fp = Except.error err →
      gather_html_macro_invocations fs fp sl kw = some (Except.error err) := by
    intro err ht
    unfold gather_html_macro_invocations
    simp only [hg]
    rw [if_neg hsl, if_neg hfp, ht]
  refine ⟨?_, ?_, ?_, herr⟩
  · intro e1 e2 h1 h2
    apply herr
    unfold tryOpen
    rw [h1, h2]
  · intro L h1
    unfold tryOpen
    rw [h1]
  · intro e1 L h1 h2
    unfold tryOpen
    rw [h1, h2]

/-- Witness for C6 on the always-failing filesystem: both candidate paths
fail and the two open errors come back concatenated with the separator. -/
theorem gather_candidate_paths_witness :
    gather_html_macro_invocations fsFail "a.rs" 1 "html!"
      = some (Except.error "open failed\nopen failed\n") :=
  (gather_candidate_paths fsFail "a.rs" 1 "html!" (by decide) (by decide)
    (by decide)).1 "open failed" "open failed" rfl rfl

/-! ## Runtime entry points -/

/-- Counterexample to C3: with strict mode off, a failed recovery does not
skip the interpreter - the generated block feeds the originally compiled
input string to `expand_runtime_main`, i.e. the outcome is an interpreter
invocation, not a static-path rendering. -/
theorem fallback_counterexample :
    expand_runtime_entry none (Except.error "recovery failed") "orig"
      = RuntimeOutcome.interpret "orig" := rfl

/-- C3 (amended): when recovery fails and the `MAUD_SOURCE_NO_FALLBACK`
environment flag is not `"1"`, no panic is raised and the Runtime
Interpreter is still invoked, with the originally compiled (pre-edit)
template text substituted for the recovered text. -/
theorem fallback_interpret_original (env : Option String) (e orig : String)
    (h : env ≠ some "1") :
    expand_runtime_entry env (Except.error e) orig
      = RuntimeOutcome.interpret orig := by
  unfold expand_runtime_entry
  rw [if_neg h]

/-- Witness for C3 (amended) at a concrete non-strict environment value. -/
theorem fallback_interpret_original_witness :
    expand_runtime_entry (some "0") (Except.error "x") "orig"
      = RuntimeOutcome.interpret "orig" :=
  fallback_interpret_original (some "0") "x" "orig" (by decide)

/-- Counterexample to C4: a tokenization failure of the raw text is not
returned as `Err` - `input.parse().unwrap_or_else(|_| panic!("{}", input))`
(lib.rs 117) sits outside the `catch_unwind`, so the panic escapes
`expand_runtime_main` uncontrolled. -/
theorem runtime_main_counterexample :
    expand_runtime_main lexFailEnv [] "let x ="
      = MainOutcome.panicked "let x =" := rfl

/-- C4 (amended): `expand_runtime_main`'s boundary catches only the runtime
parse - a panic in `parse_at_runtime` is converted to `Err` with the
panic's string payload (or `"unknown panic"`), while a tokenization failure
of the raw text panics uncontrolled out of the entry point, and on parse
success the interpreter's own `Result` is returned verbatim. -/
theorem runtime_main_boundary (env : MainEnv) (vars : List (String × String))
    (input : String) :
    (env.lex input = none →
        expand_runtime_main env vars input = MainOutcome.panicked input)
    ∧ (∀ ts p, env.lex input = some ts →
        env.parse_at_runtime ts = Except.error p →
        expand_runtime_main env vars input
          = MainOutcome.err (p.getD "unknown panic"))
    ∧ (∀ ts ms, env.lex input = some ts →
        env.parse_at_runtime ts = Except.ok ms →
        expand_runtime_main env vars input
          = match env.runInterp ms vars with
            | Except.ok x => MainOutcome.ok x
            | Except.error e => MainOutcome.err e) := by
  refine ⟨?_, ?_, ?_⟩
  · intro h
    unfold expand_runtime_main
    simp only [h]
  · intro ts p h1 h2
    unfold expand_runtime_main
    simp only [h1, h2]
    cases p <;> rfl
  · intro ts ms h1 h2
    unfold expand_runtime_main
    simp only [h1, h2]

/-- Witness for C4 (amended) at the concrete failing tokenizer. -/
theorem runtime_main_boundary_witness :
    expand_runtime_main lexFailEnv [] "x" = MainOutcome.panicked "x" :=
  (runtime_main_boundary lexFailEnv [] "x").1 rfl

/-! ## Builder-step field lemmas -/

theorem push_format_arg_format (b : RuntimeBuilder) (p : Payload) :
    (b.push_format_arg p).format_str
      = b.format_str ++ "\x7b" ++ Nat.repr b.arg_track ++ "\x7d" := by
  unfold RuntimeBuilder.push_format_arg
  cases h : b.vars_ident <;> simp [h]

theorem push_format_arg_track (b : RuntimeBuilder) (p : Payload) :
    (b.push_format_arg p).arg_track = b.arg_track + 1 := by
  unfold RuntimeBuilder.push_format_arg
  cases h : b.vars_ident <;> simp [h]

theorem push_format_arg_vars (b : RuntimeBuilder) (p : Payload) :
    (b.push_format_arg p).vars_ident = b.vars_ident := by
  unfold RuntimeBuilder.push_format_arg
  cases h : b.vars_ident <;> simp [h]

theorem push_format_arg_tokens (b : RuntimeBuilder) (p : Payload) :
    (b.push_format_arg p).tokens
      = b.tokens ++
        (if b.vars_ident.isSome then [RtTok.insert (Nat.repr b.arg_track) p]
          else []) := by
  unfold RuntimeBuilder.push_format_arg
  cases h : b.vars_ident <;> simp [h]

/-! ## The format template does not depend on the variable-map mode (C10) -/

theorem preserves_comp {f g : RuntimeBuilder → RuntimeBuilder}
    (hf : PreservesFmt f) (hg : PreservesFmt g) :
    PreservesFmt (fun b => g (f b)) := by
  intro b1 b2 h1 h2
  rcases hf b1 b2 h1 h2 with ⟨a1, a2⟩
  exact hg (f b1) (f b2) a1 a2

theorem preserves_congr {f g : RuntimeBuilder → RuntimeBuilder}
    (h : ∀ b, f b = g b) (hg : PreservesFmt g) : PreservesFmt f := by
  intro b1 b2 h1 h2
  rw [h b1, h b2]
  exact hg b1 b2 h1 h2

theorem preserves_id : PreservesFmt (fun b => b) := by
  intro b1 b2 h1 h2
  exact ⟨h1, h2⟩

theorem preserves_push_str (s : String) :
    PreservesFmt (fun b => b.push_str s) := by
  intro b1 b2 h1 h2
  unfold RuntimeBuilder.push_str
  exact ⟨by simp [h1], h2⟩

theorem preserves_push_escaped (s : String) :
    PreservesFmt (fun b => b.push_escaped s) := by
  intro b1 b2 h1 h2
  refine ⟨?_, h2⟩
  rw [push_escaped_format, push_escaped_format, h1]

theorem preserves_push_format_arg (p : Payload) :
    PreservesFmt (fun b => b.push_format_arg p) := by
  intro b1 b2 h1 h2
  refine ⟨?_, ?_⟩
  · rw [push_format_arg_format, push_format_arg_format, h1, h2]
  · rw [push_format_arg_track, push_format_arg_track, h2]

theorem preserves_let (t : Tokens) :
    PreservesFmt (fun b => { b with tokens := b.tokens ++ [RtTok.lit t] }) := by
  intro b1 b2 h1 h2
  exact ⟨h1, h2⟩

mutual

theorem markupsGo_preserves : ∀ ms : List Markup, PreservesFmt (markupsGo ms)
  | [] => preserves_congr (fun b => by simp [markupsGo]) preserves_id
  | m :: ms =>
    preserves_congr (fun b => by simp [markupsGo])
      (preserves_comp (markupGo_preserves m) (markupsGo_preserves ms))
termination_by ms => sizeOf ms

theorem markupGo_preserves : ∀ m : Markup, PreservesFmt (markupGo m)
  | Markup.parseError => preserves_congr (fun b => by simp [markupGo]) preserves_id
  | Markup.block (MBlock.mk ms rb) => by
    by_cases h : ms.any isLet
    · exact preserves_congr (fun b => by simp [markupGo, h])
        (preserves_push_format_arg (Payload.special [MSpecial.mk "" (MBlock.mk ms rb)]))
    · exact preserves_congr (fun b => by simp [markupGo, h])
        (markupsGo_preserves ms)
  | Markup.literal content =>
    preserves_congr (fun b => by simp [markupGo]) (preserves_push_escaped content)
  | Markup.symbol s =>
    preserves_congr (fun b => by simp [markupGo])
      (preserves_push_escaped (name_to_string s))
  | Markup.splice e =>
    preserves_congr (fun b => by simp [markupGo])
      (preserves_push_format_arg (Payload.splice e))
  | Markup.element name attrs ElementBody.void =>
    preserves_congr (fun b => by simp [markupGo])
      (preserves_comp
        (preserves_comp
          (preserves_comp (preserves_push_str "<")
            (preserves_push_escaped (name_to_string name)))
          (attrsGo_preserves attrs))
        (preserves_push_str ">"))
  | Markup.element name attrs (ElementBody.block (MBlock.mk ms rb)) =>
    preserves_congr (fun b => by simp [markupGo])
      (preserves_comp
        (preserves_comp
          (preserves_comp
            (preserves_comp
              (preserves_comp
                (preserves_comp (preserves_push_str "<")
                  (preserves_push_escaped (name_to_string name)))
                (attrsGo_preserves attrs))
              (preserves_push_str ">"))
            (markupsGo_preserves ms))
          (preserves_comp (preserves_push_str "</")
            (preserves_push_escaped (name_to_string name))))
        (preserves_push_str ">"))
  | Markup.letIn t =>
    preserves_congr (fun b => by simp [markupGo]) (preserves_let t)
  | Markup.special segs =>
    preserves_congr (fun b => by simp [markupGo])
      (preserves_push_format_arg (Payload.special segs))
  | Markup.other t =>
    preserves_congr (fun b => by simp [markupGo])
      (preserves_push_format_arg (Payload.fallback t))
termination_by m => sizeOf m

theorem attrsGo_preserves : ∀ l : List NamedAttr, PreservesFmt (attrsGo l)
  | [] => preserves_congr (fun b => by simp [attrsGo]) preserves_id
  | NamedAttr.mk name (AttrType.normal value) :: rest =>
    preserves_congr (fun b => by simp [attrsGo])
      (preserves_comp
        (preserves_comp
          (preserves_comp
            (preserves_comp (preserves_push_str " ")
              (preserves_push_escaped (name_to_string name)))
            (preserves_push_str "=\""))
          (preserves_comp (markupGo_preserves value) (preserves_push_str "\"")))
        (attrsGo_preserves rest))
  | NamedAttr.mk name (AttrType.optional cond) :: rest =>
    preserves_congr (fun b => by simp [attrsGo])
      (preserves_comp
        (preserves_push_format_arg (Payload.optionalAttr cond (name_to_string name)))
        (attrsGo_preserves rest))
  | NamedAttr.mk name (AttrType.empty none) :: rest =>
    preserves_congr (fun b => by simp [attrsGo])
      (preserves_comp
        (preserves_comp (preserves_push_str " ")
          (preserves_push_escaped (name_to_string name)))
        (attrsGo_preserves rest))
  | NamedAttr.mk name (AttrType.empty (some cond)) :: rest =>
    preserves_congr (fun b => by simp [attrsGo])
      (preserves_comp
        (preserves_push_format_arg (Payload.emptyToggleAttr cond (name_to_string name)))
        (attrsGo_preserves rest))
termination_by l => sizeOf l

end

/-- C10: the format template is independent of whether a live variable map
is being populated - running the builder with no variable-map identifier
(dry run, `runtime::format_str`'s caller passes `None`) produces
character-for-character the same format string as running it with a live
identifier; the mode affects only the emitted token stream. -/
theorem format_str_mode_blind (ms : List Markup) (v : String) :
    Runtime.format_str (some v) ms = Runtime.format_str none ms :=
  (markupsGo_preserves ms (RuntimeBuilder.new (some v))
    (RuntimeBuilder.new none) rfl rfl).1

/-! ## Placeholder-scanner lemmas (C1) -/

theorem scanRun_append (A : List Char) : ∀ (st : ScanSt) (B : List Char),
    scanRun st (A ++ B)
      = ((scanRun (scanRun st A).1 B).1,
          (scanRun st A).2 ++ (scanRun (scanRun st A).1 B).2) := by
  induction A with
  | nil => intro st B; simp [scanRun]
  | cons c cs ih => intro st B; simp [scanRun, ih, List.append_assoc]

theorem digitChar_ne_rbrace (m : Nat) (h : m < 10) :
    Nat.digitChar m ≠ '\x7d' := by
  interval_cases m <;> decide

theorem toDigitsCore_ne_rbrace (fuel : Nat) : ∀ (n : Nat) (acc : List Char),
    (∀ c ∈ acc, c ≠ '\x7d') →
    ∀ c ∈ Nat.toDigitsCore 10 fuel n acc, c ≠ '\x7d' := by
  induction fuel with
  | zero =>
    intro n acc hacc
    simpa [Nat.toDigitsCore] using hacc
  | succ fuel ih =>
    intro n acc hacc
    unfold Nat.toDigitsCore
    have hcons : ∀ c ∈ Nat.digitChar (n % 10) :: acc, c ≠ '\x7d' := by
      intro c hc
      rcases List.mem_cons.mp hc with rfl | h
      · exact digitChar_ne_rbrace _ (Nat.mod_lt _ (by omega))
      · exact hacc c h
    dsimp only
    split
    · exact hcons
    · exact ih _ _ hcons

theorem repr_ne_rbrace (n : Nat) : ∀ c ∈ (Nat.repr n).data, c ≠ '\x7d' := by
  have : (Nat.repr n).data = Nat.toDigitsCore 10 (n + 1) n [] := rfl
  rw [this]
  exact toDigitsCore_ne_rbrace (n + 1) n [] (by simp)

theorem scanRun_ph (ds : List Char) : ∀ (buf rest : List Char),
    (∀ c ∈ ds, c ≠ '\x7d') →
    scanRun (ScanSt.ph buf) (ds ++ '\x7d' :: rest)
      = ((scanRun ScanSt.normal rest).1,
          String.mk (buf.reverse ++ ds) :: (scanRun ScanSt.normal rest).2) := by
  induction ds with
  | nil => intro buf rest _; simp [scanRun, scanStep]
  | cons d ds ih =>
    intro buf rest hds
    have hd : d ≠ '\x7d' := hds d (by simp)
    have h2 := ih (d :: buf) rest (fun c hc => hds c (by simp [hc]))
    rw [List.cons_append]
    show scanRun (ScanSt.ph buf) (d :: (ds ++ '\x7d' :: rest)) = _
    simp only [scanRun, scanStep, if_neg hd]
    rw [h2]
    simp [List.reverse_cons, List.append_assoc]

theorem scanRun_placeholder (ds rest : List Char)
    (hds : ∀ c ∈ ds, c ≠ '\x7d') :
    scanRun ScanSt.normal ('\x7b' :: (ds ++ '\x7d' :: rest))
      = ((scanRun ScanSt.normal rest).1,
          String.mk ds :: (scanRun ScanSt.normal rest).2) := by
  simp [scanRun, scanStep, scanRun_ph ds [] rest hds]

theorem pushEscaped_chunk (l : List Char) :
    scanRun ScanSt.normal (mapJoin pushEscapedCharSpec l)
      = (ScanSt.normal, []) := by
  induction l with
  | nil => rfl
  | cons c cs ih =>
    have hc : scanRun ScanSt.normal (pushEscapedCharSpec c).data
        = (ScanSt.normal, []) := by
      by_cases h1 : c = '\\'
      · subst h1; decide
      by_cases h2 : c = '\x7b'
      · subst h2; decide
      by_cases h3 : c = '\x7d'
      · subst h3; decide
      by_cases h4 : c = '&'
      · subst h4; decide
      by_cases h5 : c = '<'
      · subst h5; decide
      by_cases h6 : c = '>'
      · subst h6; decide
      by_cases h7 : c = '\"'
      · subst h7; decide
      · rw [pushEscapedCharSpec_other c h1 h2 h3 h4 h5 h6 h7]
        have : (String.singleton c).data = [c] := rfl
        rw [this]
        simp [scanRun, scanStep, h1, h2]
    show scanRun ScanSt.normal ((pushEscapedCharSpec c).data ++ _) = _
    rw [scanRun_append, hc]
    simpa using ih

/-! ## Emitted-keys and key-range lemmas (C1) -/

theorem insKeys_append (a : List RtTok) : ∀ b : List RtTok,
    insKeys (a ++ b) = insKeys a ++ insKeys b := by
  induction a with
  | nil => intro b; rfl
  | cons t ts ih => intro b; cases t <;> simp [insKeys, ih]

theorem keyRange_zero (a : Nat) : keyRange a 0 = [] := rfl

theorem keyRange_one (a : Nat) : keyRange a 1 = [Nat.repr a] := rfl

theorem keyRange_append (a n m : Nat) :
    keyRange a n ++ keyRange (a + n) m = keyRange a (n + m) := by
  unfold keyRange
  rw [← List.map_append, List.range'_append_1, Nat.add_comm m n]

/-! ## The generator's builder-state contract (C1) -/

theorem emits_congr {f g : RuntimeBuilder → RuntimeBuilder} {n : Nat}
    (h : ∀ b, f b = g b) (hg : Emits g n) : Emits f n := by
  intro b hb
  rw [h b]
  exact hg b hb

theorem emits_cast {f : RuntimeBuilder → RuntimeBuilder} {n m : Nat}
    (hf : Emits f n) (e : n = m) : Emits f m := e ▸ hf

theorem emits_id : Emits (fun b => b) 0 := by
  intro b hb
  refine ⟨rfl, by simp, by simp [keyRange_zero], hb, by simp [keyRange_zero]⟩

theorem emits_comp {f g : RuntimeBuilder → RuntimeBuilder} {n m : Nat}
    (hf : Emits f n) (hg : Emits g m) : Emits (fun b => g (f b)) (n + m) := by
  intro b hb
  obtain ⟨v1, a1, k1, n1, i1⟩ := hf b hb
  obtain ⟨v2, a2, k2, n2, i2⟩ := hg (f b) n1
  refine ⟨by rw [v2, v1], by rw [a2, a1, Nat.add_assoc], ?_, n2, ?_⟩
  · rw [k2, k1, v1, a1]
    by_cases hv : b.vars_ident.isSome
    · simp only [hv, if_true, List.append_assoc, keyRange_append]
    · simp [hv]
  · rw [i2, i1, a1, List.append_assoc, keyRange_append]

theorem emits_push_str (s : String)
    (h : scanRun ScanSt.normal s.data = (ScanSt.normal, [])) :
    Emits (fun b => b.push_str s) 0 := by
  intro b hb
  have hfmt : (b.push_str s).format_str = b.format_str ++ s := rfl
  refine ⟨rfl, by simp [RuntimeBuilder.push_str],
    by simp [RuntimeBuilder.push_str, keyRange_zero], ?_, ?_⟩
  · show (scanRun ScanSt.normal (b.format_str ++ s).data).1 = ScanSt.normal
    rw [String.data_append, scanRun_append, hb, h]
  · show (scanRun ScanSt.normal (b.format_str ++ s).data).2 = _
    rw [String.data_append, scanRun_append, hb, h]
    simp [fmtIds, keyRange_zero]

theorem emits_push_escaped (s : String) :
    Emits (fun b => b.push_escaped s) 0 := by
  intro b hb
  have hfmt := push_escaped_format b s
  have hch := pushEscaped_chunk s.data
  refine ⟨rfl, rfl, by simp [RuntimeBuilder.push_escaped, keyRange_zero], ?_, ?_⟩
  · show (scanRun ScanSt.normal (b.push_escaped s).format_str.data).1 = ScanSt.normal
    rw [hfmt, String.data_append, scanRun_append, hb]
    exact congrArg Prod.fst hch
  · show (scanRun ScanSt.normal (b.push_escaped s).format_str.data).2 = _
    rw [hfmt, String.data_append, scanRun_append, hb, hch]
    simp [fmtIds, keyRange_zero]

theorem emits_push_format_arg (p : Payload) :
    Emits (fun b => b.push_format_arg p) 1 := by
  intro b hb
  have hfmt := push_format_arg_format b p
  have hdata : (b.push_format_arg p).format_str.data
      = b.format_str.data ++
          ('\x7b' :: ((Nat.repr b.arg_track).data ++ '\x7d' :: [])) := by
    rw [hfmt]
    simp [String.data_append]
  have hph := scanRun_placeholder (Nat.repr b.arg_track).data []
    (repr_ne_rbrace b.arg_track)
  refine ⟨push_format_arg_vars b p, by rw [push_format_arg_track], ?_, ?_, ?_⟩
  · rw [push_format_arg_tokens, insKeys_append, keyRange_one]
    by_cases hv : b.vars_ident.isSome
    · simp [hv, insKeys]
    · simp [hv, insKeys]
  · show (scanRun ScanSt.normal (b.push_format_arg p).format_str.data).1
      = ScanSt.normal
    rw [hdata, scanRun_append, hb, hph]
    rfl
  · show (scanRun ScanSt.normal (b.push_format_arg p).format_str.data).2 = _
    rw [hdata, scanRun_append, hb, hph]
    have : String.mk (Nat.repr b.arg_track).data = Nat.repr b.arg_track := rfl
    simp [fmtIds, keyRange_one, this, scanRun]

theorem emits_let (t : Tokens) :
    Emits (fun b => { b with tokens := b.tokens ++ [RtTok.lit t] }) 0 := by
  intro b hb
  refine ⟨rfl, by simp, ?_, hb, by simp [keyRange_zero]⟩
  rw [insKeys_append]
  simp [insKeys, keyRange_zero]

mutual

theorem markupsGo_emits : ∀ ms : List Markup, Emits (markupsGo ms) (dcList ms)
  | [] =>
    emits_cast (emits_congr (fun b => by simp [markupsGo]) emits_id)
      (by simp [dcList])
  | m :: ms =>
    emits_cast
      (emits_congr (fun b => by simp [markupsGo])
        (emits_comp (markupGo_emits m) (markupsGo_emits ms)))
      (by simp [dcList])
termination_by ms => sizeOf ms

theorem markupGo_emits : ∀ m : Markup, Emits (markupGo m) (dcM m)
  | Markup.parseError =>
    emits_cast (emits_congr (fun b => by simp [markupGo]) emits_id)
      (by simp [dcM])
  | Markup.block (MBlock.mk ms rb) => by
    by_cases h : ms.any isLet
    · exact emits_cast
        (emits_congr (fun b => by simp [markupGo, h])
          (emits_push_format_arg
            (Payload.special [MSpecial.mk "" (MBlock.mk ms rb)])))
        (by simp [dcM, h])
    · exact emits_cast
        (emits_congr (fun b => by simp [markupGo, h]) (markupsGo_emits ms))
        (by simp [dcM, h])
  | Markup.literal content =>
    emits_cast
      (emits_congr (fun b => by simp [markupGo]) (emits_push_escaped content))
      (by simp [dcM])
  | Markup.symbol s =>
    emits_cast
      (emits_congr (fun b => by simp [markupGo])
        (emits_push_escaped (name_to_string s)))
      (by simp [dcM])
  | Markup.splice e =>
    emits_cast
      (emits_congr (fun b => by simp [markupGo])
        (emits_push_format_arg (Payload.splice e)))
      (by simp [dcM])
  | Markup.element name attrs ElementBody.void =>
    emits_cast
      (emits_congr (fun b => by simp [markupGo])
        (emits_comp
          (emits_comp
            (emits_comp (emits_push_str "<" (by decide))
              (emits_push_escaped (name_to_string name)))
            (attrsGo_emits attrs))
          (emits_push_str ">" (by decide))))
      (by simp [dcM, dcBody])
  | Markup.element name attrs (ElementBody.block (MBlock.mk ms rb)) =>
    emits_cast
      (emits_congr (fun b => by simp [markupGo])
        (emits_comp
          (emits_comp
            (emits_comp
              (emits_comp
                (emits_comp
                  (emits_comp (emits_push_str "<" (by decide))
                    (emits_push_escaped (name_to_string name)))
                  (attrsGo_emits attrs))
                (emits_push_str ">" (by decide)))
              (markupsGo_emits ms))
            (emits_comp (emits_push_str "</" (by decide))
              (emits_push_escaped (name_to_string name))))
          (emits_push_str ">" (by decide))))
      (by simp [dcM, dcBody])
  | Markup.letIn t =>
    emits_cast (emits_congr (fun b => by simp [markupGo]) (emits_let t))
      (by simp [dcM])
  | Markup.special segs =>
    emits_cast
      (emits_congr (fun b => by simp [markupGo])
        (emits_push_format_arg (Payload.special segs)))
      (by simp [dcM])
  | Markup.other t =>
    emits_cast
      (emits_congr (fun b => by simp [markupGo])
        (emits_push_format_arg (Payload.fallback t)))
      (by simp [dcM])
termination_by m => sizeOf m

theorem attrsGo_emits : ∀ l : List NamedAttr, Emits (attrsGo l) (dcAttrs l)
  | [] =>
    emits_cast (emits_congr (fun b => by simp [attrsGo]) emits_id)
      (by simp [dcAttrs])
  | NamedAttr.mk name (AttrType.normal value) :: rest =>
    emits_cast
      (emits_congr (fun b => by simp [attrsGo])
        (emits_comp
          (emits_comp
            (emits_comp
              (emits_comp (emits_push_str " " (by decide))
                (emits_push_escaped (name_to_string name)))
              (emits_push_str "=\"" (by decide)))
            (emits_comp (markupGo_emits value) (emits_push_str "\"" (by decide))))
          (attrsGo_emits rest)))
      (by simp [dcAttrs])
  | NamedAttr.mk name (AttrType.optional cond) :: rest =>
    emits_cast
      (emits_congr (fun b => by simp [attrsGo])
        (emits_comp
          (emits_push_format_arg (Payload.optionalAttr cond (name_to_string name)))
          (attrsGo_emits rest)))
      (by simp [dcAttrs])
  | NamedAttr.mk name (AttrType.empty none) :: rest =>
    emits_cast
      (emits_congr (fun b => by simp [attrsGo])
        (emits_comp
          (emits_comp (emits_push_str " " (by decide))
            (emits_push_escaped (name_to_string name)))
          (attrsGo_emits rest)))
      (by simp [dcAttrs])
  | NamedAttr.mk name (AttrType.empty (some cond)) :: rest =>
    emits_cast
      (emits_congr (fun b => by simp [attrsGo])
        (emits_comp
          (emits_push_format_arg
            (Payload.emptyToggleAttr cond (name_to_string name)))
          (attrsGo_emits rest)))
      (by simp [dcAttrs])
termination_by l => sizeOf l

end

theorem dcList_append : ∀ a b : List Markup,
    dcList (a ++ b) = dcList a + dcList b := by
  intro a b
  induction a with
  | nil => simp [dcList]
  | cons m ms ih => simp [dcList, ih, Nat.add_assoc]

/-- C1: for a markup list with `N` dynamic pieces, run with a live variable
map, the placeholder ids recorded in the format template and the keys of
the emitted variable-map insertions are both exactly `0..N-1` in
left-to-right depth-first traversal order, each written as a positional
placeholder `{v}` (read back by the placeholder scanner `fmtIds`); and the
assignment is unchanged by inserting or deleting purely literal text
between the dynamic pieces. -/
theorem var_id_assignment (ms : List Markup) (v : String) :
    fmtIds (Runtime.format_str (some v) ms)
        = (List.range (dcList ms)).map Nat.repr
    ∧ insKeys (Runtime.generate (some v) ms)
        = (List.range (dcList ms)).map Nat.repr
    ∧ (∀ pre post s,
        dcList (pre ++ Markup.literal s :: post) = dcList (pre ++ post))
    ∧ (∀ pre post s,
        fmtIds (Runtime.format_str (some v) (pre ++ Markup.literal s :: post))
            = fmtIds (Runtime.format_str (some v) (pre ++ post))
        ∧ insKeys (Runtime.generate (some v) (pre ++ Markup.literal s :: post))
            = insKeys (Runtime.generate (some v) (pre ++ post))) := by
  have hbase : FmtNeutral (RuntimeBuilder.new (some v)).format_str := rfl
  have key : ∀ ms' : List Markup,
      fmtIds (Runtime.format_str (some v) ms') = keyRange 0 (dcList ms')
      ∧ insKeys (Runtime.generate (some v) ms') = keyRange 0 (dcList ms') := by
    intro ms'
    obtain ⟨hv, ha, hk, hn, hi⟩ :=
      markupsGo_emits ms' (RuntimeBuilder.new (some v)) hbase
    constructor
    · simpa [Runtime.format_str, RuntimeBuilder.new, fmtIds] using hi
    · simpa [Runtime.generate, RuntimeBuilder.new, insKeys] using hk
  have hrange : ∀ n : Nat, keyRange 0 n = (List.range n).map Nat.repr := by
    intro n
    unfold keyRange
    rw [List.range_eq_range']
  have hcount : ∀ pre post s,
      dcList (pre ++ Markup.literal s :: post) = dcList (pre ++ post) := by
    intro pre post s
    rw [dcList_append, dcList_append]
    simp [dcList, dcM]
  refine ⟨by rw [(key ms).1, hrange], by rw [(key ms).2, hrange], hcount, ?_⟩
  intro pre post s
  constructor
  · rw [(key _).1, (key _).1, hcount]
  · rw [(key _).2, (key _).2, hcount]

end Maud
